import Mathlib

/-!
Verification of the development-server lifecycle manager in
`lib/tasks/server/express-server.js` (class `ExpressServerTask`).

The JavaScript source is shallowly embedded: paths and module-cache keys are
`List Char`, the module cache is an association list, the asynchronous
promise-chaining of `restartHttpServer` is an explicit step machine on a
state record, the lodash `debounce` used by `scheduleServerRestart` is a
timed state machine, and the middleware/startup pipeline of
`startHttpServer` is a pure function producing an event trace together with
an optional error (a thrown exception or rejected promise).
-/

namespace ExpressServer

/-! ### Errors

The source throws `TypeError` for configuration mistakes (bad SSL paths,
malformed custom server module) and `SilentError` for bind failures; a raw
transport error from the `'error'` event of the node server is never shown
to the user directly.  Messages are kept structured so that the path or
address they identify is part of the value; `render` reproduces the
source's literal text. -/

inductive ErrMsg where
  | sslKeyMissing (keyPath : List Char)
  | sslCertMissing (certPath : List Char)
  | badServerModule
  | bindFail (host : Option (List Char)) (port : Nat)
  | addonFailure (idx : Nat)
  | stopFailure
  | rawBindError
  deriving DecidableEq, Repr

/-- Errors: `TypeError` (spec: `ConfigurationError`), `SilentError` (spec:
`BindError`, no stack trace surfaced), or a raw transport error. -/
inductive JsError where
  | typeError (msg : ErrMsg)
  | silentError (msg : ErrMsg)
  | rawError (msg : ErrMsg)
  deriving DecidableEq, Repr

/-- Source `displayHost(specifiedHost)` — source line 42: `specifiedHost || 'localhost'`. -/
def displayHost (specifiedHost : Option (List Char)) : List Char :=
  match specifiedHost with
  | some h => h
  | none => "localhost".toList

/-- Source text of each error, as interpolated in the JS.  `pathStr` just
packs the character list back into a string. -/
def pathStr (p : List Char) : String := String.mk p

def render : ErrMsg → String
  | .sslKeyMissing k =>
      "SSL key couldn't be found in \"" ++ pathStr k ++
        "\", please provide a path to an existing ssl key file with --ssl-key"
  | .sslCertMissing c =>
      "SSL certificate couldn't be found in \"" ++ pathStr c ++
        "\", please provide a path to an existing ssl certificate file with --ssl-cert"
  | .badServerModule =>
      "ember-cli expected ./server/index.js to be the entry for your mock or proxy server"
  | .bindFail h p =>
      "Could not serve on http://" ++ pathStr (displayHost h) ++ ":" ++ toString p ++
        ". It is either in use or you do not have permission."
  | .addonFailure i => "addon middleware " ++ toString i ++ " rejected"
  | .stopFailure => "http server close failed"
  | .rawBindError => "listen EADDRINUSE"

/-! ### ModuleCacheInvalidator — `invalidateCache(serverRoot)`, source lines 218–230

`require.cache` is modelled as an association list from resolved file path
(`List Char`) to a loaded-artifact id.  `path.resolve` is modelled as the
identity on already-absolute normalized paths (the claims quantify over
absolute roots).  The source appends `path.sep` when the root does not end
in it, then deletes every cache key whose `indexOf` of that root is `0`,
i.e. every key that starts with it. -/

/-- Source test `s.indexOf(p) === 0`: the key `s` starts with the character list `p`. -/
def leadsWith : List Char → List Char → Bool
  | [], _ => true
  | _ :: _, [] => false
  | a :: as, b :: bs => a = b && leadsWith as bs

/-- Lines 219–222: append the separator unless the root already ends in it. -/
def normalizeRoot (sep : Char) (root : List Char) : List Char :=
  if root.getLast? = some sep then root else root ++ [sep]

/-- The deletion loop of lines 224–229: walk `allKeys` and delete each
matching key from the cache. -/
def deleteKeys (cache : List (List Char × Nat)) : List (List Char) → List (List Char × Nat)
  | [] => cache
  | k :: ks => deleteKeys (cache.filter (fun e => !(e.1 = k))) ks

/-- Source `invalidateCache(serverRoot)` — lines 218–230. -/
def invalidateCache (sep : Char) (serverRoot : List Char)
    (cache : List (List Char × Nat)) : List (List Char × Nat) :=
  let absoluteServerRoot := normalizeRoot sep serverRoot
  let allKeys := (cache.map Prod.fst).filter (fun k => leadsWith absoluteServerRoot k)
  deleteKeys cache allKeys

/-! ### RestartScheduler, debounce stage — `scheduleServerRestart`, lines 24–27

`debounce(fn, delay)` from lodash with default options invokes `fn` once on
the trailing edge: each call postpones the single pending invocation to
`now + delay`.  The timed machine below carries the deadline of the pending
timer and the number of times the debounced function has fired.  Time only
moves forward through the events we feed in. -/

structure DebounceState where
  deadline : Option Nat
  fires : Nat
  deriving DecidableEq, Repr

def initDebounce : DebounceState := { deadline := none, fires := 0 }

/-- Let wall-clock time reach `t`: a pending timer whose deadline has
passed fires (invoking `restartHttpServer`) and is cleared. -/
def advanceTo (t : Nat) (st : DebounceState) : DebounceState :=
  match st.deadline with
  | some d => if d ≤ t then { deadline := none, fires := st.fires + 1 } else st
  | none => st

/-- One watcher notification at time `t` (`serverWatcherDidChange`, lines
150–152, wired to `change`/`add`/`delete` at lines 137–141): time first
advances to `t`, then the call resets the pending deadline to `t + delay`. -/
def notifyAt (delay t : Nat) (st : DebounceState) : DebounceState :=
  let st' := advanceTo t st
  { st' with deadline := some (t + delay) }

def runNotifications (delay : Nat) (times : List Nat) : DebounceState :=
  times.foldl (fun st t => notifyAt delay t st) initDebounce

/-- Line 24: `this.serverRestartDelayTime || 100`. -/
def defaultServerRestartDelayTime : Nat := 100

/-! ### Startup pipeline — `startHttpServer`, lines 199–216

The pipeline run is embedded as a pure function returning an event trace
plus an optional error.  An `Ev` records each observable action of the
build: mounting compression, constructing the (http or https) node server,
mounting or invoking the custom server module, invoking an addon's
`serverMiddleware` hook, and calling `listen`. -/

inductive Ev where
  | useCompression                                   -- line 201
  | createServer (https : Bool)                      -- lines 48 / 50
  | customMounted                                    -- line 122, `this.app.use(server)`
  | customFactoryCalled (arity : Nat)                -- line 125, `server(this.app, options)`
  | addonHook (idx : Nat)                            -- line 104
  | listenCalled (port : Nat) (host : Option (List Char))  -- line 90
  deriving DecidableEq, Repr

/-- Shape of the export of the custom server module (`./server/index.js`):
not a function, or a function of some arity; when invoked as a factory it
may return a rejecting promise / throw (`factoryRejects`). -/
inductive ServerModule where
  | nonFunction
  | fn (arity : Nat) (factoryRejects : Option JsError)
  deriving DecidableEq, Repr

/-- An addon as seen by `processAddonMiddlewares`: either it has no
`serverMiddleware` hook (the guard at line 103 skips it), or the hook's
promise resolves, or it rejects with an error. -/
inductive AddonHook where
  | noHook
  | resolves
  | rejects (e : JsError)
  deriving DecidableEq, Repr

structure Config where
  ssl : Bool
  sslKey : List Char
  sslCert : List Char
  port : Nat
  host : Option (List Char)
  /-- Field is `none` iff `this.project.has(this.serverRoot)` is false (line 113). -/
  serverModule : Option ServerModule
  /-- Source `this.project.addons`, in collection order. -/
  addons : List AddonHook
  deriving Repr

/-- External world: which paths `exists-sync` reports, and whether the
transport bind at (port, host) succeeds. -/
structure Env where
  fsExists : List Char → Bool
  bindOk : Bool

/-- Source `createHttpsServer()`, lines 67–84: check the key path, then the cert
path, throwing a `TypeError` before any server is constructed; on success
construct the https server. -/
def createHttpsServer (cfg : Config) (env : Env) : List Ev × Option JsError :=
  if env.fsExists cfg.sslKey = false then
    ([], some (.typeError (.sslKeyMissing cfg.sslKey)))
  else if env.fsExists cfg.sslCert = false then
    ([], some (.typeError (.sslCertMissing cfg.sslCert)))
  else
    ([Ev.createServer true], none)

/-- Source `setupHttpServer()`, lines 46–65.  In the ssl branch the assignment to
`this.httpServer` only happens when `createHttpsServer` returns without
throwing; the plain branch always constructs.  (The connection-tracking
handlers installed at lines 55–64 are modelled in `HttpState` below.) -/
def setupHttpServer (cfg : Config) (env : Env) : List Ev × Option JsError :=
  if cfg.ssl then createHttpsServer cfg env
  else ([Ev.createServer false], none)

/-- Source `processAppMiddlewares(options)`, lines 112–127. -/
def processAppMiddlewares (serverModule : Option ServerModule) :
    List Ev × Option JsError :=
  match serverModule with
  | none => ([], none)
  | some .nonFunction => ([], some (.typeError .badServerModule))
  | some (.fn arity factoryRejects) =>
      if arity = 3 then ([Ev.customMounted], none)
      else ([Ev.customFactoryCalled arity], factoryRejects)

/-- Source `mapSeries(this.project.addons, ...)`, lines 102–109: hooks run one at
a time in collection order; a rejection stops the iteration and rejects
the whole mapSeries promise.  `i` is the index of the head addon in the
original collection. -/
def processAddonMiddlewaresFrom (i : Nat) : List AddonHook → List Ev × Option JsError
  | [] => ([], none)
  | .noHook :: rest => processAddonMiddlewaresFrom (i + 1) rest
  | .resolves :: rest =>
      let tail := processAddonMiddlewaresFrom (i + 1) rest
      (Ev.addonHook i :: tail.1, tail.2)
  | .rejects e :: _ => ([Ev.addonHook i], some e)

/-- Source `processAddonMiddlewares(options)`, lines 99–110. -/
def processAddonMiddlewares (addons : List AddonHook) : List Ev × Option JsError :=
  processAddonMiddlewaresFrom 0 addons

/-- Source `listen(port, host)`, lines 86–97: calls the transport's listen and
resolves on the `'listening'` event, rejects with the raw transport error
on `'error'`. -/
def listen (cfg : Config) (env : Env) : List Ev × Option JsError :=
  ([Ev.listenCalled cfg.port cfg.host],
    if env.bindOk then none else some (.rawError .rawBindError))

/-- Outcome of one `startHttpServer()` call made from the `Stopped` state
(no server previously assigned): the full event trace, the error escaping
the call (if any), whether `this.httpServer` holds a server instance
afterwards, and whether that server is listening. -/
structure StartOutcome where
  trace : List Ev
  err : Option JsError
  httpServerSet : Bool
  listening : Bool
  deriving DecidableEq, Repr

/-- Source `startHttpServer()`, lines 199–216: mount compression (line 201), set
up the server (line 203 — a synchronous throw here leaves `this.httpServer`
unassigned), then the promise chain: app middlewares, addon middlewares,
listen; a listen rejection is replaced by the user-facing `SilentError`
(lines 212–215). -/
def startHttpServer (cfg : Config) (env : Env) : StartOutcome :=
  match (setupHttpServer cfg env).2 with
  | some e =>
      ⟨Ev.useCompression :: (setupHttpServer cfg env).1, some e, false, false⟩
  | none =>
    match (processAppMiddlewares cfg.serverModule).2 with
    | some e =>
        ⟨Ev.useCompression :: (setupHttpServer cfg env).1 ++
          (processAppMiddlewares cfg.serverModule).1, some e, true, false⟩
    | none =>
      match (processAddonMiddlewares cfg.addons).2 with
      | some e =>
          ⟨Ev.useCompression :: (setupHttpServer cfg env).1 ++
            (processAppMiddlewares cfg.serverModule).1 ++
            (processAddonMiddlewares cfg.addons).1, some e, true, false⟩
      | none =>
        match (listen cfg env).2 with
        | some _ =>
            ⟨Ev.useCompression :: (setupHttpServer cfg env).1 ++
              (processAppMiddlewares cfg.serverModule).1 ++
              (processAddonMiddlewares cfg.addons).1 ++ (listen cfg env).1,
              some (.silentError (.bindFail cfg.host cfg.port)), true, false⟩
        | none =>
            ⟨Ev.useCompression :: (setupHttpServer cfg env).1 ++
              (processAppMiddlewares cfg.serverModule).1 ++
              (processAddonMiddlewares cfg.addons).1 ++ (listen cfg env).1,
              none, true, true⟩

/-! ### ConnectionRegistry and `stopHttpServer`, lines 177–197

`this.sockets` is the registry of live socket ids (lines 55–64); each
socket's own `'close'` handler removes it (lines 61–63).  `stopHttpServer`
force-destroys every tracked socket (lines 191–195), which triggers those
close handlers, and resolves from the node `close` callback (lines
182–189); node's close callback reports an error when the server was not
listening. -/

inductive PromiseOutcome where
  | resolvedP
  | rejectedP (e : JsError)
  deriving DecidableEq, Repr

structure HttpState where
  /-- Field `this.httpServer`: `none` when unset / nulled, `some b` a server
  instance with listening-flag `b`. -/
  httpServer : Option Bool
  /-- Field `this.sockets`: ids of the currently tracked sockets. -/
  sockets : List Nat
  deriving DecidableEq, Repr

/-- The socket `'close'` handler of lines 61–63: drop the entry. -/
def removeSocket (id : Nat) (registry : List Nat) : List Nat :=
  registry.filter (fun s => !(s = id))

/-- The destroy loop of lines 193–195: destroying each socket fires its
close handler, which removes it from the registry. -/
def destroySockets (registry : List Nat) : List Nat → List Nat
  | [] => registry
  | id :: ids => destroySockets (removeSocket id registry) ids

/-- Node's `server.close(cb)`: the callback receives an error iff the
server was not listening. -/
def closeServerErr (listening : Bool) : Option JsError :=
  if listening then none else some (.rawError .stopFailure)

/-- Source `stopHttpServer()`, lines 177–197. -/
def stopHttpServer (st : HttpState) : PromiseOutcome × HttpState :=
  match st.httpServer with
  | none => (.resolvedP, st)                             -- lines 179–181
  | some listening =>
      let registry := destroySockets st.sockets st.sockets
      match closeServerErr listening with
      | some e => (.rejectedP e, { st with sockets := registry })
      | none => (.resolvedP, { httpServer := none, sockets := registry })

/-! ### One restart cycle — `restartHttpServer`, fresh branch, lines 155–170

`stop → invalidateCache → start → emit/report`, with the `.catch` at line
164 consuming any error of the chain (`ui.writeError` itself is total). -/

inductive UIEv where
  | wroteError (e : JsError)
  | wroteLine (s : String)
  | emitted (name : String)
  deriving DecidableEq, Repr

/-- Everything one cycle depends on: the outcome of its `stopHttpServer()`
promise, and the configuration/environment its `startHttpServer()` runs
in (cache invalidation at line 157 is interposed between the two). -/
structure CycleEnv where
  stopOutcome : Option JsError
  cfg : Config
  env : Env

/-- The error escaping the `then`-chain of lines 156–163 before the
`.catch` sees it: a stop rejection short-circuits, otherwise whatever
`startHttpServer` produces. -/
def thenChainErr (ce : CycleEnv) : Option JsError :=
  match ce.stopOutcome with
  | some e => some e
  | none => (startHttpServer ce.cfg ce.env).err

/-- The `.catch(err => this.ui.writeError(err))` (lines 164–165): the handler
returns normally, so the resulting promise is resolved whether or not the
chain failed. -/
def catchP : Option JsError → PromiseOutcome
  | some _ => .resolvedP
  | none => .resolvedP

/-- The settled outcome of the promise returned by the fresh branch of
`restartHttpServer()` (line 156–170). -/
def restartCyclePromise (ce : CycleEnv) : PromiseOutcome :=
  catchP (thenChainErr ce)

/-- The user-visible output of one cycle: lines 160–163 on success, line
165 on failure. -/
def restartCycleUI (ce : CycleEnv) : List UIEv :=
  match thenChainErr ce with
  | some e => [.wroteError e]
  | none =>
      [.emitted ("restart"), .wroteLine (""), .wroteLine ("Server restarted."),
        .wroteLine ("")]

/-! ### RestartScheduler, serialization stage — `restartHttpServer`, lines 154–175

The promise juggling is embedded as a step machine.  State: `inFlight`
models `this.serverRestartPromise !== null`; `queued` counts the
continuations `.then(() => this.restartHttpServer())` (line 172–173)
attached to the in-flight promise and not yet run.  Commands: `request` is
an invocation of `restartHttpServer()` (debounce firing, line 26, or a
direct call); `complete` is the settling of the in-flight cycle's promise.
When it settles, the `finally` (lines 166–168) nulls
`this.serverRestartPromise` first; then the queued continuations run in
order: the first re-invocation finds the slot free and starts the next
cycle at once, the remaining ones re-queue onto that new cycle's promise.
The chronological `trace` records `true` for a cycle start and `false` for
a cycle end. -/

inductive RCmd where
  | request
  | complete
  deriving DecidableEq, Repr

structure RestartMachine where
  inFlight : Bool
  queued : Nat
  starts : Nat
  ends : Nat
  trace : List Bool
  deriving DecidableEq, Repr

def initRestart : RestartMachine :=
  { inFlight := false, queued := 0, starts := 0, ends := 0, trace := [] }

def rStep (st : RestartMachine) : RCmd → RestartMachine
  | .request =>
      if st.inFlight then { st with queued := st.queued + 1 }
      else { st with inFlight := true, starts := st.starts + 1,
                     trace := st.trace ++ [true] }
  | .complete =>
      if st.inFlight then
        if st.queued = 0 then
          { st with inFlight := false, ends := st.ends + 1,
                    trace := st.trace ++ [false] }
        else
          { st with queued := st.queued - 1, starts := st.starts + 1,
                    ends := st.ends + 1, trace := st.trace ++ [false, true] }
      else st

def rRun (cmds : List RCmd) : RestartMachine :=
  cmds.foldl rStep initRestart

/-- Number of `request` commands in a command list. -/
def reqCount (cmds : List RCmd) : Nat :=
  cmds.countP (fun c => c = RCmd.request)

/-- The strictly alternating start/end trace of `n` completed cycles, in
chronological order. -/
def fullCycles : Nat → List Bool
  | 0 => []
  | n + 1 => true :: false :: fullCycles n

/-- Apply `n` `complete` commands. -/
def completeN : Nat → RestartMachine → RestartMachine
  | 0, st => st
  | n + 1, st => completeN n (rStep st .complete)

/-- Let every outstanding cycle (the in-flight one and each queued
request) run to completion. -/
def drain (st : RestartMachine) : RestartMachine :=
  completeN (st.queued + (if st.inFlight then 1 else 0)) st

/-- Invariant tying a reachable `RestartMachine` state together: the
chronological trace is the strictly alternating start/end sequence of the
completed cycles, followed by the start of the in-flight one (if any);
starts outnumber ends exactly when a cycle is in flight; and requests only
queue while a cycle is in flight. -/
def RInv (st : RestartMachine) : Prop :=
  st.trace = fullCycles st.ends ++ (if st.inFlight then [true] else []) ∧
  st.starts = st.ends + (if st.inFlight then 1 else 0) ∧
  (st.inFlight = false → st.queued = 0)

/-- Potential `starts + queued`: requests admitted so far. -/
def pot (st : RestartMachine) : Nat := st.starts + st.queued

/-! ### Event classification helpers -/

/-- The index of an addon-hook event. -/
def addonIdx : Ev → Option Nat
  | .addonHook i => some i
  | _ => none

def isAddonEv (e : Ev) : Bool := (addonIdx e).isSome

def isCustomEv : Ev → Bool
  | .customMounted => true
  | .customFactoryCalled _ => true
  | _ => false

/-- The indices of the addons whose `serverMiddleware` hook gets invoked,
starting the count at `i`, mirroring `processAddonMiddlewaresFrom`. -/
def hookIdxFrom (i : Nat) : List AddonHook → List Nat
  | [] => []
  | .noHook :: rest => hookIdxFrom (i + 1) rest
  | .resolves :: rest => i :: hookIdxFrom (i + 1) rest
  | .rejects _ :: _ => [i]

/-! ### Lemmas about the module-cache invalidator -/

lemma mem_deleteKeys (ks : List (List Char)) :
    ∀ (cache : List (List Char × Nat)) (e : List Char × Nat),
      e ∈ deleteKeys cache ks ↔ e ∈ cache ∧ e.1 ∉ ks := by
  induction ks with
  | nil => intro cache e; simp [deleteKeys]
  | cons k ks ih =>
      intro cache e
      rw [deleteKeys, ih]
      simp only [List.mem_filter, List.mem_cons]
      constructor
      · rintro ⟨⟨hc, hk⟩, hks⟩
        simp only [Bool.not_eq_true', decide_eq_false_iff_not] at hk
        exact ⟨hc, by tauto⟩
      · rintro ⟨hc, hn⟩
        push_neg at hn
        exact ⟨⟨hc, by simp [hn.1]⟩, hn.2⟩

lemma mem_invalidateCache (sep : Char) (root : List Char)
    (cache : List (List Char × Nat)) (e : List Char × Nat) :
    e ∈ invalidateCache sep root cache ↔
      e ∈ cache ∧ leadsWith (normalizeRoot sep root) e.1 = false := by
  rw [invalidateCache, mem_deleteKeys]
  constructor
  · rintro ⟨hc, hk⟩
    refine ⟨hc, ?_⟩
    by_contra h
    exact hk (by
      simp only [List.mem_filter, List.mem_map]
      exact ⟨⟨e, hc, rfl⟩, by simpa using h⟩)
  · rintro ⟨hc, hl⟩
    refine ⟨hc, fun hk => ?_⟩
    rw [List.mem_filter] at hk
    rw [hk.2] at hl
    exact Bool.true_eq_false.mp hl

/-! ### Lemmas about the connection registry -/

lemma destroySockets_nil (l : List Nat) :
    ∀ registry : List Nat, (∀ x ∈ registry, x ∈ l) →
      destroySockets registry l = [] := by
  induction l with
  | nil =>
      intro registry h
      have : registry = [] := List.eq_nil_iff_forall_not_mem.mpr
        (fun x hx => (List.not_mem_nil x) (h x hx))
      simp [this, destroySockets]
  | cons id ids ih =>
      intro registry h
      rw [destroySockets]
      apply ih
      intro x hx
      rw [removeSocket, List.mem_filter] at hx
      rcases hx with ⟨hxr, hxne⟩
      simp only [Bool.not_eq_true', decide_eq_false_iff_not] at hxne
      rcases List.mem_cons.mp (h x hxr) with h1 | h2
      · exact absurd h1 hxne
      · exact h2

/-! ### Lemmas about the debounce stage -/

lemma debounce_fold (delay : Nat) :
    ∀ (rest : List Nat) (t f : Nat),
      List.Chain (fun a b => a ≤ b ∧ b < a + delay) t rest →
      List.foldl (fun st u => notifyAt delay u st)
          ⟨some (t + delay), f⟩ rest
        = ⟨some (rest.getLastD t + delay), f⟩ := by
  intro rest
  induction rest with
  | nil => intro t f _; rfl
  | cons u rest ih =>
      intro t f h
      rw [List.chain_cons] at h
      rcases h with ⟨⟨hle, hlt⟩, hchain⟩
      have hstep : notifyAt delay u (⟨some (t + delay), f⟩ : DebounceState)
          = ⟨some (u + delay), f⟩ := by
        simp only [notifyAt, advanceTo]
        rw [if_neg (by omega)]
      rw [List.foldl_cons, hstep, ih u f hchain, List.getLastD_cons]

/-! ### Lemmas about the startup pipeline -/

lemma setup_events (cfg : Config) (env : Env) :
    ∀ e ∈ (setupHttpServer cfg env).1, ∃ b, e = Ev.createServer b := by
  intro e he
  rw [setupHttpServer] at he
  split at he
  · rw [createHttpsServer] at he
    split at he
    · simp at he
    · split at he
      · simp at he
      · simp at he
        exact ⟨true, he⟩
  · simp at he
    exact ⟨false, he⟩

lemma app_events (m : Option ServerModule) :
    ∀ e ∈ (processAppMiddlewares m).1, isCustomEv e = true := by
  intro e he
  match m with
  | none => simp [processAppMiddlewares] at he
  | some .nonFunction => simp [processAppMiddlewares] at he
  | some (.fn arity fr) =>
      rw [processAppMiddlewares] at he
      split at he
      · simp at he
        rw [he]; rfl
      · simp at he
        rw [he]; rfl

lemma addonFrom_events :
    ∀ (l : List AddonHook) (i : Nat),
      ∀ e ∈ (processAddonMiddlewaresFrom i l).1,
        ∃ j, i ≤ j ∧ j < i + l.length ∧ e = Ev.addonHook j := by
  intro l
  induction l with
  | nil => intro i e he; simp [processAddonMiddlewaresFrom] at he
  | cons a rest ih =>
      intro i e he
      match a with
      | .noHook =>
          rcases ih (i + 1) e he with ⟨j, h1, h2, h3⟩
          exact ⟨j, by omega, by simp; omega, h3⟩
      | .resolves =>
          rw [processAddonMiddlewaresFrom] at he
          rcases List.mem_cons.mp he with h | h
          · exact ⟨i, le_refl i, by simp, h⟩
          · rcases ih (i + 1) e h with ⟨j, h1, h2, h3⟩
            exact ⟨j, by omega, by simp; omega, h3⟩
      | .rejects err =>
          rw [processAddonMiddlewaresFrom] at he
          simp at he
          exact ⟨i, le_refl i, by simp, he⟩

lemma addonFrom_filterMap :
    ∀ (l : List AddonHook) (i : Nat),
      (processAddonMiddlewaresFrom i l).1.filterMap addonIdx = hookIdxFrom i l := by
  intro l
  induction l with
  | nil => intro i; rfl
  | cons a rest ih =>
      intro i
      match a with
      | .noHook => exact ih (i + 1)
      | .resolves =>
          rw [processAddonMiddlewaresFrom, hookIdxFrom]
          simp only [List.filterMap_cons]
          rw [ih (i + 1)]
          rfl
      | .rejects err => rfl

lemma hookIdx_lb :
    ∀ (l : List AddonHook) (i : Nat), ∀ j ∈ hookIdxFrom i l, i ≤ j := by
  intro l
  induction l with
  | nil => intro i j hj; simp [hookIdxFrom] at hj
  | cons a rest ih =>
      intro i j hj
      match a with
      | .noHook => exact Nat.le_of_succ_le (ih (i + 1) j hj)
      | .resolves =>
          rw [hookIdxFrom] at hj
          rcases List.mem_cons.mp hj with h | h
          · omega
          · exact Nat.le_of_succ_le (ih (i + 1) j h)
      | .rejects err =>
          rw [hookIdxFrom] at hj
          simp at hj
          omega

lemma hookIdx_chain :
    ∀ (l : List AddonHook) (i : Nat), List.Chain' (· < ·) (hookIdxFrom i l) := by
  intro l
  induction l with
  | nil => intro i; exact List.chain'_nil
  | cons a rest ih =>
      intro i
      match a with
      | .noHook => exact ih (i + 1)
      | .resolves =>
          rw [hookIdxFrom, List.chain'_cons']
          refine ⟨fun y hy => ?_, ih (i + 1)⟩
          have hmem : y ∈ hookIdxFrom (i + 1) rest := List.mem_of_mem_head? hy
          have := hookIdx_lb rest (i + 1) y hmem
          omega
      | .rejects err => exact List.chain'_singleton i

lemma addonFrom_fail :
    ∀ (pre : List AddonHook) (i : Nat) (e : JsError) (post : List AddonHook),
      (∀ a ∈ pre, a = AddonHook.noHook ∨ a = AddonHook.resolves) →
      (processAddonMiddlewaresFrom i (pre ++ AddonHook.rejects e :: post)).2 = some e ∧
      Ev.addonHook (i + pre.length) ∈
        (processAddonMiddlewaresFrom i (pre ++ AddonHook.rejects e :: post)).1 ∧
      (∀ ev ∈ (processAddonMiddlewaresFrom i (pre ++ AddonHook.rejects e :: post)).1,
        ∃ j, j ≤ i + pre.length ∧ ev = Ev.addonHook j) := by
  intro pre
  induction pre with
  | nil =>
      intro i e post _
      refine ⟨rfl, ?_, ?_⟩
      · simp [processAddonMiddlewaresFrom]
      · intro ev hev
        simp [processAddonMiddlewaresFrom] at hev
        exact ⟨i, by omega, hev⟩
  | cons a pre ih =>
      intro i e post hok
      have ha := hok a (List.mem_cons_self a pre)
      have hpre : ∀ x ∈ pre, x = AddonHook.noHook ∨ x = AddonHook.resolves :=
        fun x hx => hok x (List.mem_cons_of_mem a hx)
      rcases ha with ha | ha
      · subst ha
        rcases ih (i + 1) e post hpre with ⟨h1, h2, h3⟩
        rw [List.cons_append]
        refine ⟨h1, ?_, ?_⟩
        · rw [processAddonMiddlewaresFrom]
          have : i + 1 + pre.length = i + (pre.length + 1) := by omega
          rw [this] at h2
          simpa using h2
        · intro ev hev
          rw [processAddonMiddlewaresFrom] at hev
          rcases h3 ev hev with ⟨j, hj1, hj2⟩
          exact ⟨j, by simp; omega, hj2⟩
      · subst ha
        rcases ih (i + 1) e post hpre with ⟨h1, h2, h3⟩
        rw [List.cons_append]
        refine ⟨h1, ?_, ?_⟩
        · rw [processAddonMiddlewaresFrom]
          apply List.mem_cons_of_mem
          have : i + 1 + pre.length = i + (pre.length + 1) := by omega
          rw [this] at h2
          simpa using h2
        · intro ev hev
          rw [processAddonMiddlewaresFrom] at hev
          rcases List.mem_cons.mp hev with h | h
          · exact ⟨i, by omega, h⟩
          · rcases h3 ev h with ⟨j, hj1, hj2⟩
            exact ⟨j, by simp; omega, hj2⟩

/-! ## Claim theorems -/

/-- C10: In every pipeline build (`startHttpServer` runs both on a
fresh start and inside each restart cycle, line 158), the compression
middleware is mounted first, before the custom server module and before
any addon-contributed middleware: the build trace starts with
`useCompression` and never mounts it again. -/
theorem compression_first (cfg : Config) (env : Env) :
    ∃ rest, (startHttpServer cfg env).trace = Ev.useCompression :: rest ∧
      Ev.useCompression ∉ rest := by
  have hsetup : Ev.useCompression ∉ (setupHttpServer cfg env).1 := by
    intro h
    rcases setup_events cfg env _ h with ⟨b, hb⟩
    exact absurd hb (by simp)
  have happ : Ev.useCompression ∉ (processAppMiddlewares cfg.serverModule).1 := by
    intro h
    have := app_events cfg.serverModule _ h
    simp [isCustomEv] at this
  have haddon : Ev.useCompression ∉ (processAddonMiddlewares cfg.addons).1 := by
    intro h
    rcases addonFrom_events cfg.addons 0 _ h with ⟨j, _, _, hj⟩
    exact absurd hj (by simp)
  have hlist : Ev.useCompression ∉ (listen cfg env).1 := by
    simp [listen]
  rcases h1 : (setupHttpServer cfg env).2 with _ | e1
  · rcases h2 : (processAppMiddlewares cfg.serverModule).2 with _ | e2
    · rcases h3 : (processAddonMiddlewares cfg.addons).2 with _ | e3
      · rcases h4 : (listen cfg env).2 with _ | e4
        · refine ⟨(setupHttpServer cfg env).1 ++
            (processAppMiddlewares cfg.serverModule).1 ++
            (processAddonMiddlewares cfg.addons).1 ++ (listen cfg env).1,
            by simp [startHttpServer, h1, h2, h3, h4], ?_⟩
          simp [List.mem_append, hsetup, happ, haddon, hlist]
        · refine ⟨(setupHttpServer cfg env).1 ++
            (processAppMiddlewares cfg.serverModule).1 ++
            (processAddonMiddlewares cfg.addons).1 ++ (listen cfg env).1,
            by simp [startHttpServer, h1, h2, h3, h4], ?_⟩
          simp [List.mem_append, hsetup, happ, haddon, hlist]
      · refine ⟨(setupHttpServer cfg env).1 ++
          (processAppMiddlewares cfg.serverModule).1 ++
          (processAddonMiddlewares cfg.addons).1,
          by simp [startHttpServer, h1, h2, h3], ?_⟩
        simp [List.mem_append, hsetup, happ, haddon]
    · refine ⟨(setupHttpServer cfg env).1 ++
        (processAppMiddlewares cfg.serverModule).1,
        by simp [startHttpServer, h1, h2], ?_⟩
      simp [List.mem_append, hsetup, happ]
  · refine ⟨(setupHttpServer cfg env).1,
      by simp [startHttpServer, h1], ?_⟩
    exact hsetup

/-- C5: Starting with ssl enabled and a missing key or certificate
path fails with the `TypeError` (spec: `ConfigurationError`) naming that
path, before any bind attempt: no `listen` call appears in the trace and
no server is listening. -/
theorem tls_missing_aborts (cfg : Config) (env : Env) (hssl : cfg.ssl = true) :
    (env.fsExists cfg.sslKey = false →
       (startHttpServer cfg env).err
           = some (.typeError (.sslKeyMissing cfg.sslKey)) ∧
       (startHttpServer cfg env).listening = false ∧
       (∀ p h, Ev.listenCalled p h ∉ (startHttpServer cfg env).trace)) ∧
    (env.fsExists cfg.sslKey = true → env.fsExists cfg.sslCert = false →
       (startHttpServer cfg env).err
           = some (.typeError (.sslCertMissing cfg.sslCert)) ∧
       (startHttpServer cfg env).listening = false ∧
       (∀ p h, Ev.listenCalled p h ∉ (startHttpServer cfg env).trace)) := by
  constructor
  · intro hk
    have hstart : startHttpServer cfg env =
        ⟨[Ev.useCompression], some (.typeError (.sslKeyMissing cfg.sslKey)),
          false, false⟩ := by
      simp [startHttpServer, setupHttpServer, createHttpsServer, hssl, hk]
    refine ⟨by rw [hstart], by rw [hstart], ?_⟩
    intro p h
    rw [hstart]
    simp
  · intro hk hc
    have hstart : startHttpServer cfg env =
        ⟨[Ev.useCompression], some (.typeError (.sslCertMissing cfg.sslCert)),
          false, false⟩ := by
      simp [startHttpServer, setupHttpServer, createHttpsServer, hssl, hk, hc]
    refine ⟨by rw [hstart], by rw [hstart], ?_⟩
    intro p h
    rw [hstart]
    simp

/-- Witness for C5: with ssl on and a filesystem reporting no existing
paths, the start fails naming the key path and never calls listen. -/
theorem tls_missing_aborts_witness :
    (startHttpServer ⟨true, "k".toList, "c".toList, 4200, none, none, []⟩
        ⟨fun _ => false, true⟩).err
      = some (.typeError (.sslKeyMissing ("k".toList))) ∧
    Ev.listenCalled 4200 none ∉
      (startHttpServer ⟨true, "k".toList, "c".toList, 4200, none, none, []⟩
        ⟨fun _ => false, true⟩).trace := by
  have h := (tls_missing_aborts
    ⟨true, "k".toList, "c".toList, 4200, none, none, []⟩
    ⟨fun _ => false, true⟩ rfl).1 rfl
  exact ⟨h.1, h.2.2 4200 none⟩

/-- C6: A present custom server module whose export is not a function
makes the build fail with the `TypeError` (spec: `ConfigurationError`); an
exported function of exactly 3 parameters is mounted directly as a
handler; a function of any other arity is invoked as a factory with
`(app, options)` (its result propagating as the phase's outcome). -/
theorem server_module_shapes (arity : Nat) (fr : Option JsError)
    (cfg : Config) (env : Env) :
    (processAppMiddlewares (some .nonFunction)
        = ([], some (.typeError .badServerModule))) ∧
    (arity = 3 →
       processAppMiddlewares (some (.fn arity fr)) = ([Ev.customMounted], none)) ∧
    (arity ≠ 3 →
       processAppMiddlewares (some (.fn arity fr))
         = ([Ev.customFactoryCalled arity], fr)) ∧
    (cfg.ssl = false → cfg.serverModule = some .nonFunction →
       (startHttpServer cfg env).err = some (.typeError .badServerModule)) := by
  refine ⟨rfl, ?_, ?_, ?_⟩
  · intro h3
    rw [processAppMiddlewares, if_pos h3]
  · intro h3
    rw [processAppMiddlewares, if_neg h3]
  · intro hssl hm
    simp [startHttpServer, setupHttpServer, hssl, hm, processAppMiddlewares]

/-- Witness for C6 at arities 3 and 2, and a concrete non-function module
failing a full build. -/
theorem server_module_shapes_witness :
    processAppMiddlewares (some .nonFunction)
        = ([], some (.typeError .badServerModule)) ∧
    processAppMiddlewares (some (.fn 3 none)) = ([Ev.customMounted], none) ∧
    processAppMiddlewares (some (.fn 2 none))
        = ([Ev.customFactoryCalled 2], none) ∧
    (startHttpServer ⟨false, [], [], 4200, none, some .nonFunction, []⟩
        ⟨fun _ => true, true⟩).err = some (.typeError .badServerModule) := by
  refine ⟨(server_module_shapes 3 none
      ⟨false, [], [], 4200, none, some .nonFunction, []⟩
      ⟨fun _ => true, true⟩).1, ?_, ?_, ?_⟩
  · exact (server_module_shapes 3 none
      ⟨false, [], [], 4200, none, some .nonFunction, []⟩
      ⟨fun _ => true, true⟩).2.1 rfl
  · exact (server_module_shapes 2 none
      ⟨false, [], [], 4200, none, some .nonFunction, []⟩
      ⟨fun _ => true, true⟩).2.2.1 (by omega)
  · exact (server_module_shapes 2 none
      ⟨false, [], [], 4200, none, some .nonFunction, []⟩
      ⟨fun _ => true, true⟩).2.2.2 rfl rfl

/-- C9 counterexample: At a concrete bind failure (port taken, plain
http, no custom module, no addons) the start fails with the user-facing
`SilentError` — but `this.httpServer` still holds the unbound server
instance afterwards, so partial state *is* left behind, refuting the
claim's "no partial state behind". -/
theorem bind_failure_partial_state :
    (startHttpServer ⟨false, [], [], 4200, none, none, []⟩
        ⟨fun _ => true, false⟩).err
      = some (.silentError (.bindFail none 4200)) ∧
    ¬ (startHttpServer ⟨false, [], [], 4200, none, none, []⟩
        ⟨fun _ => true, false⟩).httpServerSet = false := by
  constructor
  · rfl
  · intro h
    exact absurd h (by decide)

/-- C9 amended: When binding fails (after the earlier phases went
through), the failure is replaced by the user-facing fatal `SilentError`
(spec: `BindError`; a `SilentError` is printed without a raw stack trace),
propagates out of the start, exactly one bind attempt is made (no retry),
and no server is listening — but the manager's `httpServer` field still
references the unbound server instance. -/
theorem bind_failure_spec (cfg : Config) (env : Env)
    (hbind : env.bindOk = false)
    (hsetup : (setupHttpServer cfg env).2 = none)
    (happ : (processAppMiddlewares cfg.serverModule).2 = none)
    (haddon : (processAddonMiddlewares cfg.addons).2 = none) :
    (startHttpServer cfg env).err
        = some (.silentError (.bindFail cfg.host cfg.port)) ∧
    (startHttpServer cfg env).listening = false ∧
    (startHttpServer cfg env).trace.count
        (Ev.listenCalled cfg.port cfg.host) = 1 ∧
    (startHttpServer cfg env).httpServerSet = true := by
  have hlis : (listen cfg env).2 = some (.rawError .rawBindError) := by
    simp [listen, hbind]
  have hcount0A : (setupHttpServer cfg env).1.count
      (Ev.listenCalled cfg.port cfg.host) = 0 := by
    rw [List.count_eq_zero]
    intro h
    rcases setup_events cfg env _ h with ⟨b, hb⟩
    exact absurd hb (by simp)
  have hcount0B : (processAppMiddlewares cfg.serverModule).1.count
      (Ev.listenCalled cfg.port cfg.host) = 0 := by
    rw [List.count_eq_zero]
    intro h
    have := app_events cfg.serverModule _ h
    simp [isCustomEv] at this
  have hcount0C : (processAddonMiddlewares cfg.addons).1.count
      (Ev.listenCalled cfg.port cfg.host) = 0 := by
    rw [List.count_eq_zero]
    intro h
    rcases addonFrom_events cfg.addons 0 _ h with ⟨j, _, _, hj⟩
    exact absurd hj (by simp)
  have hstart : startHttpServer cfg env =
      ⟨Ev.useCompression :: (setupHttpServer cfg env).1 ++
        (processAppMiddlewares cfg.serverModule).1 ++
        (processAddonMiddlewares cfg.addons).1 ++ (listen cfg env).1,
        some (.silentError (.bindFail cfg.host cfg.port)), true, false⟩ := by
    simp [startHttpServer, hsetup, happ, haddon, hlis]
  refine ⟨by rw [hstart], by rw [hstart], ?_, by rw [hstart]⟩
  rw [hstart]
  simp [List.count_cons, List.count_append, hcount0A, hcount0B, hcount0C, listen]

/-- Witness for the amended C9 at a concrete failing bind. -/
theorem bind_failure_spec_witness :
    (startHttpServer ⟨false, [], [], 4200, some ("0.0.0.0".toList), none, []⟩
        ⟨fun _ => true, false⟩).err
      = some (.silentError (.bindFail (some ("0.0.0.0".toList)) 4200)) ∧
    (startHttpServer ⟨false, [], [], 4200, some ("0.0.0.0".toList), none, []⟩
        ⟨fun _ => true, false⟩).trace.count
      (Ev.listenCalled 4200 (some ("0.0.0.0".toList))) = 1 := by
  have h := bind_failure_spec
    ⟨false, [], [], 4200, some ("0.0.0.0".toList), none, []⟩
    ⟨fun _ => true, false⟩ rfl rfl rfl rfl
  exact ⟨h.1, h.2.2.1⟩

/-- C4: In every pipeline build the custom server module phase
completes before any addon hook is invoked (the trace splits into an
addon-free prefix and a custom-free suffix); addon hooks run one at a
time in the collection's order (their trace indices are strictly
increasing); and if an addon hook rejects — all hooks before it resolving
or absent — the failing hook runs, no later hook is invoked, and its error
propagates out of the build. -/
theorem pipeline_phases (cfg : Config) (env : Env) :
    (∃ l₁ l₂, (startHttpServer cfg env).trace = l₁ ++ l₂ ∧
       (∀ e ∈ l₁, isAddonEv e = false) ∧ (∀ e ∈ l₂, isCustomEv e = false)) ∧
    List.Chain' (· < ·) ((startHttpServer cfg env).trace.filterMap addonIdx) ∧
    (∀ (pre : List AddonHook) (e : JsError) (post : List AddonHook),
       (setupHttpServer cfg env).2 = none →
       (processAppMiddlewares cfg.serverModule).2 = none →
       cfg.addons = pre ++ AddonHook.rejects e :: post →
       (∀ a ∈ pre, a = AddonHook.noHook ∨ a = AddonHook.resolves) →
       (startHttpServer cfg env).err = some e ∧
       Ev.addonHook pre.length ∈ (startHttpServer cfg env).trace ∧
       (∀ k, pre.length < k →
         Ev.addonHook k ∉ (startHttpServer cfg env).trace)) := by
  have hsetupE : ∀ e ∈ (setupHttpServer cfg env).1,
      isAddonEv e = false ∧ isCustomEv e = false ∧ addonIdx e = none := by
    intro e he
    rcases setup_events cfg env _ he with ⟨b, rfl⟩
    exact ⟨rfl, rfl, rfl⟩
  have happE : ∀ e ∈ (processAppMiddlewares cfg.serverModule).1,
      isAddonEv e = false ∧ addonIdx e = none := by
    intro e he
    have hc := app_events cfg.serverModule _ he
    cases e <;> simp_all [isAddonEv, addonIdx, isCustomEv]
  have haddonE : ∀ e ∈ (processAddonMiddlewares cfg.addons).1,
      isCustomEv e = false := by
    intro e he
    rcases addonFrom_events cfg.addons 0 _ he with ⟨j, _, _, rfl⟩
    rfl
  have hlistE : ∀ e ∈ (listen cfg env).1,
      isCustomEv e = false ∧ addonIdx e = none ∧ isAddonEv e = false := by
    intro e he
    simp only [listen, List.mem_singleton] at he
    rw [he]
    exact ⟨rfl, rfl, rfl⟩
  have hfmSetup : (setupHttpServer cfg env).1.filterMap addonIdx = [] := by
    rw [List.filterMap_eq_nil_iff]
    intro a ha
    exact (hsetupE a ha).2.2
  have hfmApp : (processAppMiddlewares cfg.serverModule).1.filterMap addonIdx = [] := by
    rw [List.filterMap_eq_nil_iff]
    intro a ha
    exact (happE a ha).2
  have hfmList : (listen cfg env).1.filterMap addonIdx = [] := by
    rw [List.filterMap_eq_nil_iff]
    intro a ha
    exact (hlistE a ha).2.1
  have hmemL1 : ∀ e ∈ Ev.useCompression :: (setupHttpServer cfg env).1 ++
      (processAppMiddlewares cfg.serverModule).1, isAddonEv e = false := by
    intro e he
    rcases List.mem_cons.mp he with rfl | he
    · rfl
    · rcases List.mem_append.mp he with he | he
      · exact (hsetupE e he).1
      · exact (happE e he).1
  have hmemL2 : ∀ e ∈ (processAddonMiddlewares cfg.addons).1 ++ (listen cfg env).1,
      isCustomEv e = false := by
    intro e he
    rcases List.mem_append.mp he with he | he
    · exact haddonE e he
    · exact (hlistE e he).1
  have hfmAddon : (processAddonMiddlewares cfg.addons).1.filterMap addonIdx
      = hookIdxFrom 0 cfg.addons := addonFrom_filterMap cfg.addons 0
  refine ⟨?_, ?_, ?_⟩
  · -- phase ordering: an addon-free prefix, then a custom-free suffix
    rcases h1 : (setupHttpServer cfg env).2 with _ | e1
    · rcases h2 : (processAppMiddlewares cfg.serverModule).2 with _ | e2
      · rcases h3 : (processAddonMiddlewares cfg.addons).2 with _ | e3
        · rcases h4 : (listen cfg env).2 with _ | e4
          · exact ⟨Ev.useCompression :: (setupHttpServer cfg env).1 ++
                (processAppMiddlewares cfg.serverModule).1,
              (processAddonMiddlewares cfg.addons).1 ++ (listen cfg env).1,
              by simp [startHttpServer, h1, h2, h3, h4, List.append_assoc],
              hmemL1, hmemL2⟩
          · exact ⟨Ev.useCompression :: (setupHttpServer cfg env).1 ++
                (processAppMiddlewares cfg.serverModule).1,
              (processAddonMiddlewares cfg.addons).1 ++ (listen cfg env).1,
              by simp [startHttpServer, h1, h2, h3, h4, List.append_assoc],
              hmemL1, hmemL2⟩
        · refine ⟨Ev.useCompression :: (setupHttpServer cfg env).1 ++
              (processAppMiddlewares cfg.serverModule).1,
            (processAddonMiddlewares cfg.addons).1,
            by simp [startHttpServer, h1, h2, h3, List.append_assoc],
            hmemL1, fun e he => haddonE e he⟩
      · refine ⟨Ev.useCompression :: (setupHttpServer cfg env).1 ++
            (processAppMiddlewares cfg.serverModule).1, [],
          by simp [startHttpServer, h1, h2], hmemL1, by simp⟩
    · refine ⟨Ev.useCompression :: (setupHttpServer cfg env).1, [],
        by simp [startHttpServer, h1], ?_, by simp⟩
      intro e he
      rcases List.mem_cons.mp he with rfl | he
      · rfl
      · exact (hsetupE e he).1
  · -- addon hooks fire in strictly increasing collection order
    rcases h1 : (setupHttpServer cfg env).2 with _ | e1
    · rcases h2 : (processAppMiddlewares cfg.serverModule).2 with _ | e2
      · rcases h3 : (processAddonMiddlewares cfg.addons).2 with _ | e3
        · rcases h4 : (listen cfg env).2 with _ | e4
          · have : (startHttpServer cfg env).trace.filterMap addonIdx
                = hookIdxFrom 0 cfg.addons := by
              simp [startHttpServer, h1, h2, h3, h4, List.filterMap_append,
                List.filterMap_cons, hfmSetup, hfmApp, hfmList, hfmAddon, addonIdx]
            rw [this]
            exact hookIdx_chain cfg.addons 0
          · have : (startHttpServer cfg env).trace.filterMap addonIdx
                = hookIdxFrom 0 cfg.addons := by
              simp [startHttpServer, h1, h2, h3, h4, List.filterMap_append,
                List.filterMap_cons, hfmSetup, hfmApp, hfmList, hfmAddon, addonIdx]
            rw [this]
            exact hookIdx_chain cfg.addons 0
        · have : (startHttpServer cfg env).trace.filterMap addonIdx
              = hookIdxFrom 0 cfg.addons := by
            simp [startHttpServer, h1, h2, h3, List.filterMap_append,
              List.filterMap_cons, hfmSetup, hfmApp, hfmAddon, addonIdx]
          rw [this]
          exact hookIdx_chain cfg.addons 0
      · have : (startHttpServer cfg env).trace.filterMap addonIdx = [] := by
          simp [startHttpServer, h1, h2, List.filterMap_append,
            List.filterMap_cons, hfmSetup, hfmApp, addonIdx]
        rw [this]
        exact List.chain'_nil
    · have : (startHttpServer cfg env).trace.filterMap addonIdx = [] := by
        simp [startHttpServer, h1, List.filterMap_cons, hfmSetup, addonIdx]
      rw [this]
      exact List.chain'_nil
  · -- a rejecting hook aborts the remainder and propagates
    intro pre e post hs ha hadds hok
    have hfail := addonFrom_fail pre 0 e post hok
    have h3 : (processAddonMiddlewares cfg.addons).2 = some e := by
      rw [processAddonMiddlewares, hadds]
      exact hfail.1
    have hstart : startHttpServer cfg env =
        ⟨Ev.useCompression :: (setupHttpServer cfg env).1 ++
          (processAppMiddlewares cfg.serverModule).1 ++
          (processAddonMiddlewares cfg.addons).1, some e, true, false⟩ := by
      simp [startHttpServer, hs, ha, h3]
    have hmemC : Ev.addonHook pre.length ∈ (processAddonMiddlewares cfg.addons).1 := by
      rw [processAddonMiddlewares, hadds]
      have := hfail.2.1
      rwa [Nat.zero_add] at this
    refine ⟨by rw [hstart], ?_, ?_⟩
    · rw [hstart]
      exact List.mem_cons_of_mem _ (List.mem_append.mpr (Or.inr hmemC))
    · intro k hk hmem
      rw [hstart] at hmem
      rcases List.mem_cons.mp hmem with h0 | hmem'
      · exact absurd h0 (by simp)
      rcases List.mem_append.mp hmem' with hAB | hC
      · rcases List.mem_append.mp hAB with hA | hB
        · have := (hsetupE _ hA).1
          simp [isAddonEv, addonIdx] at this
        · have := (happE _ hB).1
          simp [isAddonEv, addonIdx] at this
      · rw [processAddonMiddlewares, hadds] at hC
        rcases hfail.2.2 _ hC with ⟨j, hj1, hj2⟩
        have hkj : k = j := by injection hj2
        omega

/-- Witness for C4: with addons `[resolves, rejects err, resolves]` the
failing hook (index 1) runs, index 2 is never invoked, and the error
propagates out of the build. -/
theorem pipeline_phases_witness :
    (startHttpServer
        ⟨false, [], [], 4200, none, some (.fn 3 none),
          [.resolves, .rejects (.typeError .badServerModule), .resolves]⟩
        ⟨fun _ => true, true⟩).err = some (.typeError .badServerModule) ∧
    Ev.addonHook 1 ∈ (startHttpServer
        ⟨false, [], [], 4200, none, some (.fn 3 none),
          [.resolves, .rejects (.typeError .badServerModule), .resolves]⟩
        ⟨fun _ => true, true⟩).trace ∧
    Ev.addonHook 2 ∉ (startHttpServer
        ⟨false, [], [], 4200, none, some (.fn 3 none),
          [.resolves, .rejects (.typeError .badServerModule), .resolves]⟩
        ⟨fun _ => true, true⟩).trace := by
  have h := (pipeline_phases
    ⟨false, [], [], 4200, none, some (.fn 3 none),
      [.resolves, .rejects (.typeError .badServerModule), .resolves]⟩
    ⟨fun _ => true, true⟩).2.2
    [AddonHook.resolves] (.typeError .badServerModule) [AddonHook.resolves]
    rfl rfl rfl (by decide)
  exact ⟨h.1, h.2.1, h.2.2 2 (by decide)⟩

/-! ### Lemmas about the restart serialization machine -/

lemma fullCycles_append (n : Nat) :
    fullCycles n ++ [true, false] = fullCycles (n + 1) := by
  induction n with
  | zero => rfl
  | succ k ih =>
      show (true :: false :: fullCycles k) ++ [true, false]
        = true :: false :: fullCycles (k + 1)
      rw [List.cons_append, List.cons_append, ih]

lemma rStep_inv (st : RestartMachine) (c : RCmd) (h : RInv st) :
    RInv (rStep st c) := by
  rcases h with ⟨htr, hse, hq⟩
  cases c with
  | request =>
      by_cases hf : st.inFlight
      · have hstep : rStep st .request = { st with queued := st.queued + 1 } := by
          simp [rStep, hf]
        rw [hstep]
        exact ⟨htr, hse, fun hff => by simp [hf] at hff⟩
      · have hstep : rStep st .request =
            { st with
                inFlight := true
                starts := st.starts + 1
                trace := st.trace ++ [true] } := by
          simp [rStep, hf]
        rw [hstep]
        refine ⟨?_, ?_, fun hff => by simp at hff⟩
        · have : st.trace = fullCycles st.ends := by
            simpa [hf] using htr
          simp [this]
        · have : st.starts = st.ends := by simpa [hf] using hse
          simp [this]
  | complete =>
      by_cases hf : st.inFlight
      · by_cases hq0 : st.queued = 0
        · have hstep : rStep st .complete =
              { st with
                  inFlight := false
                  ends := st.ends + 1
                  trace := st.trace ++ [false] } := by
            simp [rStep, hf, hq0]
          rw [hstep]
          refine ⟨?_, ?_, fun _ => hq0⟩
          · have htr' : st.trace = fullCycles st.ends ++ [true] := by
              simpa [hf] using htr
            simp [htr', ← fullCycles_append, List.append_assoc]
          · have : st.starts = st.ends + 1 := by simpa [hf] using hse
            simp [this]
        · have hstep : rStep st .complete =
              { st with
                  queued := st.queued - 1
                  starts := st.starts + 1
                  ends := st.ends + 1
                  trace := st.trace ++ [false, true] } := by
            simp [rStep, hf, hq0]
          rw [hstep]
          refine ⟨?_, ?_, fun hff => by simp [hf] at hff⟩
          · have htr' : st.trace = fullCycles st.ends ++ [true] := by
              simpa [hf] using htr
            simp [htr', ← fullCycles_append, List.append_assoc, hf]
          · have : st.starts = st.ends + 1 := by simpa [hf] using hse
            simp [this, hf]
      · have hstep : rStep st .complete = st := by simp [rStep, hf]
        rw [hstep]
        exact ⟨htr, hse, hq⟩

lemma pot_step (st : RestartMachine) (c : RCmd) :
    pot (rStep st c) = pot st + (if c = RCmd.request then 1 else 0) := by
  cases c with
  | request =>
      by_cases hf : st.inFlight
      · simp [rStep, pot, hf]
        omega
      · simp [rStep, pot, hf]
        omega
  | complete =>
      by_cases hf : st.inFlight
      · by_cases hq : st.queued = 0
        · simp [rStep, pot, hf, hq]
        · simp [rStep, pot, hf, hq]
          omega
      · simp [rStep, pot, hf]

lemma rRun_foldl_inv :
    ∀ (cmds : List RCmd) (st : RestartMachine), RInv st →
      RInv (cmds.foldl rStep st) ∧
      pot (cmds.foldl rStep st) = pot st + reqCount cmds := by
  intro cmds
  induction cmds with
  | nil => intro st h; exact ⟨h, by simp [reqCount]⟩
  | cons c cmds ih =>
      intro st h
      rcases ih (rStep st c) (rStep_inv st c h) with ⟨h1, h2⟩
      refine ⟨h1, ?_⟩
      rw [List.foldl_cons, h2, pot_step]
      by_cases hc : c = RCmd.request
      · simp only [reqCount, List.countP_cons, hc]
        simp
        omega
      · simp only [reqCount, List.countP_cons, hc]
        simp [hc]

lemma completeN_spec :
    ∀ (q : Nat) (st : RestartMachine), RInv st → st.queued = q →
      (completeN (q + (if st.inFlight then 1 else 0)) st).starts
          = st.starts + q ∧
      (completeN (q + (if st.inFlight then 1 else 0)) st).ends
          = st.starts + q ∧
      (completeN (q + (if st.inFlight then 1 else 0)) st).inFlight = false ∧
      (completeN (q + (if st.inFlight then 1 else 0)) st).queued = 0 := by
  intro q
  induction q with
  | zero =>
      intro st h hq
      rcases h with ⟨htr, hse, hqz⟩
      by_cases hf : st.inFlight
      · have hstep : rStep st .complete =
            { st with
                inFlight := false
                ends := st.ends + 1
                trace := st.trace ++ [false] } := by
          simp [rStep, hf, hq]
        have hse' : st.starts = st.ends + 1 := by simpa [hf] using hse
        simp only [hf, if_pos]
        show (completeN 1 st).starts = st.starts + 0 ∧ _
        rw [show completeN 1 st = rStep st .complete from rfl, hstep]
        refine ⟨by simp, by simp; omega, by simp, by simp [hq]⟩
      · simp only [hf]
        have hse' : st.starts = st.ends := by simpa [hf] using hse
        refine ⟨by simp [completeN], by simp [completeN]; omega, ?_, ?_⟩
        · simp [completeN]
          simpa using hf
        · simp [completeN, hq]
  | succ k ih =>
      intro st h hq
      have hf : st.inFlight = true := by
        by_contra hc
        have := h.2.2 (by simpa using hc)
        omega
      have hstep : rStep st .complete =
          { st with
              queued := st.queued - 1
              starts := st.starts + 1
              ends := st.ends + 1
              trace := st.trace ++ [false, true] } := by
        simp [rStep, hf, hq]
      have hinv' := rStep_inv st .complete h
      have hq' : (rStep st .complete).queued = k := by
        rw [hstep]; simp [hq]
      have := ih (rStep st .complete) hinv' hq'
      have hf' : (rStep st .complete).inFlight = true := by
        rw [hstep]; simpa using hf
      rw [hf'] at this
      simp only [hf, if_pos, if_true] at this ⊢
      have hcnt : completeN (k + 1 + 1) st
          = completeN (k + 1) (rStep st .complete) := rfl
      rw [hcnt]
      have hstarts : (rStep st .complete).starts = st.starts + 1 := by
        rw [hstep]
      rw [hstarts] at this
      refine ⟨by rw [this.1]; omega, by rw [this.2.1]; omega, this.2.2.1,
        this.2.2.2⟩

/-- C1: Restart requests are strictly serialized: after any command
sequence the chronological cycle trace is the strictly alternating
start/end word of the completed cycles followed by the start of the
in-flight one (so at most one cycle executes at any instant and every
cycle starts strictly after the previous one resolved); every request is
accounted for as a started cycle or a queued continuation; and once the
outstanding work drains, each distinct request has run its own complete
cycle (none dropped, none merged). -/
theorem restart_serialized (cmds : List RCmd) :
    (rRun cmds).trace
        = fullCycles (rRun cmds).ends ++
            (if (rRun cmds).inFlight then [true] else []) ∧
    (rRun cmds).starts
        = (rRun cmds).ends + (if (rRun cmds).inFlight then 1 else 0) ∧
    reqCount cmds = (rRun cmds).starts + (rRun cmds).queued ∧
    (drain (rRun cmds)).starts = reqCount cmds ∧
    (drain (rRun cmds)).ends = reqCount cmds ∧
    (drain (rRun cmds)).inFlight = false ∧
    (drain (rRun cmds)).queued = 0 := by
  have hinit : RInv initRestart := ⟨rfl, rfl, fun _ => rfl⟩
  have hrun := rRun_foldl_inv cmds initRestart hinit
  have hinv : RInv (rRun cmds) := hrun.1
  have hpot : pot (rRun cmds) = reqCount cmds := by
    have := hrun.2
    simpa [pot, initRestart, rRun] using this
  have hdrain := completeN_spec (rRun cmds).queued (rRun cmds) hinv rfl
  refine ⟨hinv.1, hinv.2.1, ?_, ?_, ?_, hdrain.2.2.1, hdrain.2.2.2⟩
  · rw [← hpot]; rfl
  · rw [show drain (rRun cmds)
      = completeN ((rRun cmds).queued +
          (if (rRun cmds).inFlight then 1 else 0)) (rRun cmds) from rfl]
    rw [hdrain.1, ← hpot]
    rfl
  · rw [show drain (rRun cmds)
      = completeN ((rRun cmds).queued +
          (if (rRun cmds).inFlight then 1 else 0)) (rRun cmds) from rfl]
    rw [hdrain.2.1, ← hpot]
    rfl

/-- C2: The promise returned by a restart cycle always resolves, for
every outcome (stop failure, rebuild/start failure, or success): the
`.catch` consumes any error of the stop → invalidate → start chain and
reports it to the output sink instead of propagating it. -/
theorem restart_cycle_resolves (ce : CycleEnv) :
    restartCyclePromise ce = .resolvedP ∧
    (∀ e, thenChainErr ce = some e → restartCycleUI ce = [.wroteError e]) ∧
    (∀ e, ce.stopOutcome = some e → thenChainErr ce = some e) ∧
    (ce.stopOutcome = none →
        thenChainErr ce = (startHttpServer ce.cfg ce.env).err) := by
  refine ⟨?_, ?_, ?_, ?_⟩
  · rw [restartCyclePromise]
    rcases h : thenChainErr ce with _ | e <;> rfl
  · intro e he
    rw [restartCycleUI, he]
  · intro e he
    simp [thenChainErr, he]
  · intro h
    simp [thenChainErr, h]

/-- Witness for C2: a cycle whose stop rejects still resolves and reports
the error; a cycle whose start fails to bind also resolves and reports
the `SilentError`. -/
theorem restart_cycle_resolves_witness :
    restartCyclePromise
        ⟨some (.rawError .stopFailure),
          ⟨false, [], [], 4200, none, none, []⟩, ⟨fun _ => true, true⟩⟩
      = .resolvedP ∧
    restartCycleUI
        ⟨some (.rawError .stopFailure),
          ⟨false, [], [], 4200, none, none, []⟩, ⟨fun _ => true, true⟩⟩
      = [.wroteError (.rawError .stopFailure)] ∧
    restartCyclePromise
        ⟨none, ⟨false, [], [], 4200, none, none, []⟩, ⟨fun _ => true, false⟩⟩
      = .resolvedP ∧
    restartCycleUI
        ⟨none, ⟨false, [], [], 4200, none, none, []⟩, ⟨fun _ => true, false⟩⟩
      = [.wroteError (.silentError (.bindFail none 4200))] := by
  have h1 := restart_cycle_resolves
    ⟨some (.rawError .stopFailure),
      ⟨false, [], [], 4200, none, none, []⟩, ⟨fun _ => true, true⟩⟩
  have h2 := restart_cycle_resolves
    ⟨none, ⟨false, [], [], 4200, none, none, []⟩, ⟨fun _ => true, false⟩⟩
  refine ⟨h1.1, h1.2.1 _ (h1.2.2.1 _ rfl), h2.1, h2.2.1 _ ?_⟩
  rw [h2.2.2.2 rfl]
  rfl

/-- C7: For every module-cache state and rootPath, `invalidateCache`
removes exactly those cache entries whose path begins with the absolute
rootPath normalized to end in the path separator; an entry under a sibling
directory sharing a name prefix with rootPath is not removed; and the call
is a no-op when nothing is loaded under rootPath. -/
theorem invalidateCache_spec (sep : Char) (root : List Char)
    (cache : List (List Char × Nat)) :
    (∀ e, e ∈ invalidateCache sep root cache ↔
        e ∈ cache ∧ leadsWith (normalizeRoot sep root) e.1 = false) ∧
    ((∀ e ∈ cache, leadsWith (normalizeRoot sep root) e.1 = false) →
        invalidateCache sep root cache = cache) ∧
    (root.getLast? ≠ some sep →
      ∀ e ∈ cache, leadsWith (root ++ [sep]) e.1 = false →
        e ∈ invalidateCache sep root cache) := by
  refine ⟨fun e => mem_invalidateCache sep root cache e, ?_, ?_⟩
  · intro h
    have hkeys : (cache.map Prod.fst).filter
        (fun k => leadsWith (normalizeRoot sep root) k) = [] := by
      rw [List.filter_eq_nil_iff]
      intro k hk
      rcases List.mem_map.mp hk with ⟨e, he, rfl⟩
      simp [h e he]
    rw [invalidateCache]
    rw [hkeys]
    rfl
  · intro hlast e he hsep
    rw [mem_invalidateCache]
    refine ⟨he, ?_⟩
    rwa [normalizeRoot, if_neg hlast]

/-- Witness for C7 at `sep = '/'`, `root = "/a/b"`: the sibling entry
`"/a/bc/y.js"` survives, and invalidation under `"/q"` is a no-op. -/
theorem invalidateCache_spec_witness :
    (("/a/bc/y.js".toList, 1) ∈ invalidateCache '/' "/a/b".toList
        [("/a/b/x.js".toList, 0), ("/a/bc/y.js".toList, 1)]) ∧
    invalidateCache '/' "/q".toList [("/a/b/x.js".toList, 0)]
      = [("/a/b/x.js".toList, 0)] := by
  constructor
  · exact (invalidateCache_spec '/' "/a/b".toList _).2.2 (by decide) _
      (by simp) (by decide)
  · exact (invalidateCache_spec '/' "/q".toList _).2.1 (by decide)

/-- C3: Every sequence of change/add/delete notifications arriving
within the debounce quiet window (each notification resetting the window)
produces no restart while the burst lasts and exactly one debounced
`restartHttpServer` invocation once the window elapses after the last
notification; the default window is 100 time units. -/
theorem debounce_coalesces (delay : Nat) (t0 : Nat) (rest : List Nat)
    (hchain : List.Chain (fun a b => a ≤ b ∧ b < a + delay) t0 rest) :
    (runNotifications delay (t0 :: rest)).fires = 0 ∧
    advanceTo (rest.getLastD t0 + delay) (runNotifications delay (t0 :: rest))
      = { deadline := none, fires := 1 } ∧
    defaultServerRestartDelayTime = 100 := by
  have h1 : runNotifications delay (t0 :: rest)
      = ⟨some (rest.getLastD t0 + delay), 0⟩ := by
    rw [runNotifications, List.foldl_cons]
    have hfirst : notifyAt delay t0 initDebounce = ⟨some (t0 + delay), 0⟩ := by
      rfl
    rw [hfirst]
    exact debounce_fold delay rest t0 0 hchain
  refine ⟨by rw [h1], by rw [h1]; simp [advanceTo], rfl⟩

/-- Witness for C3: three notifications at times 0, 50, 120 with the
default 100-unit window coalesce into exactly one restart at time 220. -/
theorem debounce_coalesces_witness :
    (runNotifications 100 [0, 50, 120]).fires = 0 ∧
    advanceTo 220 (runNotifications 100 [0, 50, 120])
      = { deadline := none, fires := 1 } := by
  have h := debounce_coalesces 100 0 [50, 120]
    (by constructor
        · exact ⟨by omega, by omega⟩
        · constructor
          · exact ⟨by omega, by omega⟩
          · exact List.Chain.nil)
  exact ⟨h.1, h.2.1⟩

/-- C8: If no server is active, `stopHttpServer` resolves immediately
leaving the state untouched; whenever it resolves on an active server the
registry is empty (however many connections were open) and the server slot
is cleared; and on a listening server it does resolve. -/
theorem stopHttpServer_spec (st : HttpState) :
    (st.httpServer = none → stopHttpServer st = (.resolvedP, st)) ∧
    (∀ b, st.httpServer = some b → (stopHttpServer st).1 = .resolvedP →
       (stopHttpServer st).2.sockets = [] ∧
       (stopHttpServer st).2.httpServer = none) ∧
    (st.httpServer = some true → (stopHttpServer st).1 = .resolvedP) := by
  have hdestroy : destroySockets st.sockets st.sockets = [] :=
    destroySockets_nil st.sockets st.sockets (fun x hx => hx)
  rcases hsrv : st.httpServer with _ | b
  · refine ⟨fun _ => ?_, fun b hb => ?_, fun hb => ?_⟩
    · simp [stopHttpServer, hsrv]
    · exact absurd hb (by simp)
    · exact absurd hb (by simp)
  · cases b
    · refine ⟨fun h => ?_, fun b' hb' hres => ?_, fun hb => ?_⟩
      · exact absurd h (by simp)
      · exact absurd hres (by simp [stopHttpServer, hsrv, closeServerErr])
      · exact absurd hb (by simp)
    · refine ⟨fun h => ?_, fun b' _ _ => ?_, fun _ => ?_⟩
      · exact absurd h (by simp)
      · constructor
        · simp [stopHttpServer, hsrv, closeServerErr, hdestroy]
        · simp [stopHttpServer, hsrv, closeServerErr]
      · simp [stopHttpServer, hsrv, closeServerErr]

/-- Witness for C8: stopping a listening server with three open
connections resolves with an empty registry and a cleared slot; stopping
with no active server resolves immediately. -/
theorem stopHttpServer_spec_witness :
    ((stopHttpServer ⟨some true, [5, 7, 9]⟩).1 = .resolvedP ∧
     (stopHttpServer ⟨some true, [5, 7, 9]⟩).2.sockets = [] ∧
     (stopHttpServer ⟨some true, [5, 7, 9]⟩).2.httpServer = none) ∧
    stopHttpServer ⟨none, []⟩ = (.resolvedP, ⟨none, []⟩) := by
  have h := stopHttpServer_spec ⟨some true, [5, 7, 9]⟩
  have hres := h.2.2 rfl
  have hmain := h.2.1 true rfl hres
  exact ⟨⟨hres, hmain.1, hmain.2⟩, (stopHttpServer_spec ⟨none, []⟩).1 rfl⟩

end ExpressServer
